import Mathlib

/-!
Verification of the grouped entity cache, gateway event handler and mention
formatting of the `disgo` repository, as a shallow embedding in Lean 4.

Go maps `map[K]V` are modelled as association lists `List (K × V)` with
lookup returning the first matching entry, insertion replacing the first
occurrence of the key in place (appending when the key is absent), and
deletion removing every occurrence.  A pair `(T, bool)` result with the
zero value on a miss is modelled as `Option T`.
-/

namespace GoMap

variable {κ : Type} {β : Type} [DecidableEq κ]

/-- Go map lookup `m[k]`: the value of the first entry whose key is `k`. -/
def mapGet : List (κ × β) → κ → Option β
  | [], _ => none
  | (k', v) :: rest, k => if k' = k then some v else mapGet rest k

/-- Go map write `m[k] = v`: replace the first entry keyed `k`, else append. -/
def mapPut : List (κ × β) → κ → β → List (κ × β)
  | [], k, v => [(k, v)]
  | (k', v') :: rest, k, v =>
    if k' = k then (k, v) :: rest else (k', v') :: mapPut rest k v

/-- Go map delete `delete(m, k)`: drop the entries keyed `k`. -/
def mapDel (m : List (κ × β)) (k : κ) : List (κ × β) :=
  m.filter (fun p => decide (p.1 ≠ k))

@[simp] theorem mapGet_nil (k : κ) : mapGet ([] : List (κ × β)) k = none := rfl

end GoMap

namespace cache

/-- snowflake.ID from github.com/disgoorg/snowflake/v2: an opaque 64-bit
identifier; the grouped cache only compares identifiers for equality, so it
is embedded as a natural number. -/
abbrev ID := Nat

/-- Flags, the cache-flag bitset declared in this repository outside src/.
Modelled from the spec: "a bitset of which entity kinds are mirrored". -/
abbrev Flags := Nat

/-- FlagsNone: the empty cache-flag bitset. -/
def FlagsNone : Flags := 0

/-- Modelled from the spec: `flags.Missing(needed)` holds exactly when the
bitset `flags` is missing some flag of `needed`. -/
def Flags.Missing (f needed : Flags) : Bool := f &&& needed != needed

/-- Policy[T], declared in this repository outside src/: a nilable predicate
`func(entity T) bool`; the call site `c.policy != nil && !c.policy(entity)`
in src/cache/grouped_cache.go fixes its shape. `none` models a nil policy. -/
abbrev Policy (T : Type) := Option (T → Bool)

/-- GroupedCacheFilterFunc[T] from src/cache/grouped_cache.go. -/
abbrev GroupedCacheFilterFunc (T : Type) := ID → T → Bool

/-- DefaultGroupedCache[T] from src/cache/grouped_cache.go: the two-level
store `map[snowflake.ID]map[snowflake.ID]T` together with the admission
configuration. The mutex only sequentialises access and has no sequential
semantics, so it is not part of the state. -/
structure DefaultGroupedCache (T : Type) where
  flags : Flags
  neededFlags : Flags
  policy : Policy T
  cache : List (ID × List (ID × T))

/-- NewGroupedCache from src/cache/grouped_cache.go. -/
def NewGroupedCache {T : Type} (flags neededFlags : Flags) (policy : Policy T) :
    DefaultGroupedCache T :=
  { flags := flags, neededFlags := neededFlags, policy := policy, cache := [] }

/-- DefaultGroupedCache.Get from src/cache/grouped_cache.go. -/
def DefaultGroupedCache.Get {T : Type} (c : DefaultGroupedCache T)
    (groupID id : ID) : Option T :=
  match GoMap.mapGet c.cache groupID with
  | some groupEntities => GoMap.mapGet groupEntities id
  | none => none

/-- DefaultGroupedCache.Put from src/cache/grouped_cache.go: admission check
on the flag bitset and the policy, then insert-or-replace, creating the
group bucket when absent. The `c.cache == nil` guard of the source is
vacuous here because the nil map and the empty map are both `[]`. -/
def DefaultGroupedCache.Put {T : Type} (c : DefaultGroupedCache T)
    (groupID id : ID) (entity : T) : DefaultGroupedCache T :=
  if (c.neededFlags != FlagsNone) && Flags.Missing c.flags c.neededFlags then c
  else if (match c.policy with | some p => !(p entity) | none => false) then c
  else
    { c with cache :=
        match GoMap.mapGet c.cache groupID with
        | some groupEntities =>
            GoMap.mapPut c.cache groupID (GoMap.mapPut groupEntities id entity)
        | none => GoMap.mapPut c.cache groupID [(id, entity)] }

/-- DefaultGroupedCache.Remove from src/cache/grouped_cache.go: returns the
removed entity (as `some`) together with the new state; `(T, false)` with
the zero value is modelled as `none`. -/
def DefaultGroupedCache.Remove {T : Type} (c : DefaultGroupedCache T)
    (groupID id : ID) : Option T × DefaultGroupedCache T :=
  match GoMap.mapGet c.cache groupID with
  | some groupEntities =>
    match GoMap.mapGet groupEntities id with
    | some entity =>
        (some entity,
         { c with cache :=
             GoMap.mapPut c.cache groupID (GoMap.mapDel groupEntities id) })
    | none => (none, c)
  | none => (none, c)

/-- DefaultGroupedCache.RemoveAll from src/cache/grouped_cache.go. -/
def DefaultGroupedCache.RemoveAll {T : Type} (c : DefaultGroupedCache T)
    (groupID : ID) : DefaultGroupedCache T :=
  { c with cache := GoMap.mapDel c.cache groupID }

/-- DefaultGroupedCache.RemoveIf from src/cache/grouped_cache.go: delete
from every group bucket the entities matching the filter; group keys stay
in place even when their bucket becomes empty. -/
def DefaultGroupedCache.RemoveIf {T : Type} (c : DefaultGroupedCache T)
    (filterFunc : GroupedCacheFilterFunc T) : DefaultGroupedCache T :=
  { c with cache :=
      c.cache.map (fun g => (g.1, g.2.filter (fun q => !(filterFunc g.1 q.2)))) }

/-- DefaultGroupedCache.All from src/cache/grouped_cache.go: one slice of
entities per group, in iteration order. -/
def DefaultGroupedCache.All {T : Type} (c : DefaultGroupedCache T) :
    List (ID × List T) :=
  c.cache.map (fun g => (g.1, g.2.map Prod.snd))

/-- DefaultGroupedCache.GroupAll from src/cache/grouped_cache.go: `none`
models the nil slice returned when the group is absent. -/
def DefaultGroupedCache.GroupAll {T : Type} (c : DefaultGroupedCache T)
    (groupID : ID) : Option (List T) :=
  match GoMap.mapGet c.cache groupID with
  | some groupEntities => some (groupEntities.map Prod.snd)
  | none => none

/-- Helper for FindFirst: first entity of one bucket accepted by the filter. -/
def findFirstInGroup {T : Type} (groupID : ID) (f : GroupedCacheFilterFunc T) :
    List (ID × T) → Option T
  | [] => none
  | q :: rest =>
    if f groupID q.2 then some q.2 else findFirstInGroup groupID f rest

/-- Helper for FindFirst: first accepted entity over the outer map. -/
def findFirstInGroups {T : Type} (f : GroupedCacheFilterFunc T) :
    List (ID × List (ID × T)) → Option T
  | [] => none
  | g :: rest =>
    match findFirstInGroup g.1 f g.2 with
    | some e => some e
    | none => findFirstInGroups f rest

/-- DefaultGroupedCache.FindFirst from src/cache/grouped_cache.go. -/
def DefaultGroupedCache.FindFirst {T : Type} (c : DefaultGroupedCache T)
    (cacheFindFunc : GroupedCacheFilterFunc T) : Option T :=
  findFirstInGroups cacheFindFunc c.cache

/-- DefaultGroupedCache.GroupFindFirst from src/cache/grouped_cache.go:
ranging over the missing group's nil map yields no iterations. -/
def DefaultGroupedCache.GroupFindFirst {T : Type} (c : DefaultGroupedCache T)
    (groupID : ID) (cacheFindFunc : GroupedCacheFilterFunc T) : Option T :=
  match GoMap.mapGet c.cache groupID with
  | some groupEntities => findFirstInGroup groupID cacheFindFunc groupEntities
  | none => none

/-- DefaultGroupedCache.FindAll from src/cache/grouped_cache.go: starts from
an empty non-nil slice, so the result is always a list. -/
def DefaultGroupedCache.FindAll {T : Type} (c : DefaultGroupedCache T)
    (cacheFindFunc : GroupedCacheFilterFunc T) : List T :=
  (c.cache.map
    (fun g => (g.2.filter (fun q => cacheFindFunc g.1 q.2)).map Prod.snd)).flatten

/-- DefaultGroupedCache.GroupFindAll from src/cache/grouped_cache.go. -/
def DefaultGroupedCache.GroupFindAll {T : Type} (c : DefaultGroupedCache T)
    (groupID : ID) (cacheFindFunc : GroupedCacheFilterFunc T) : List T :=
  match GoMap.mapGet c.cache groupID with
  | some groupEntities =>
      (groupEntities.filter (fun q => cacheFindFunc groupID q.2)).map Prod.snd
  | none => []

end cache

namespace core

/-- snowflake.Snowflake from github.com/DisgoOrg/snowflake: an opaque
identifier only compared for equality by the grouped cache, embedded — like
snowflake.ID of the sibling implementation — as a natural number. -/
abbrev Snowflake := Nat

/-- CacheFlags, declared in this repository outside src/. Modelled from the
spec: "a bitset of which entity kinds are mirrored". -/
abbrev CacheFlags := Nat

/-- CacheFlagsNone: the empty cache-flag bitset. -/
def CacheFlagsNone : CacheFlags := 0

/-- Modelled from the spec: `flags.Missing(needed)` holds exactly when the
bitset `flags` is missing some flag of `needed`. -/
def CacheFlags.Missing (f needed : CacheFlags) : Bool := f &&& needed != needed

/-- CachePolicy[T], declared outside src/; the call site in
src/unnamed/part_002 fixes it as a nilable `func(entity T) bool`. -/
abbrev CachePolicy (T : Type) := Option (T → Bool)

/-- GroupedCacheFindFunc[T] from src/unnamed/part_002. -/
abbrev GroupedCacheFindFunc (T : Type) := Snowflake → T → Bool

/-- DefaultGroupedCache[T] from src/unnamed/part_002 (package core). -/
structure DefaultGroupedCache (T : Type) where
  flags : CacheFlags
  neededFlags : CacheFlags
  policy : CachePolicy T
  cache : List (Snowflake × List (Snowflake × T))

/-- NewGroupedCache from src/unnamed/part_002. -/
def NewGroupedCache {T : Type} (flags neededFlags : CacheFlags)
    (policy : CachePolicy T) : DefaultGroupedCache T :=
  { flags := flags, neededFlags := neededFlags, policy := policy, cache := [] }

/-- DefaultGroupedCache.Get from src/unnamed/part_002. -/
def DefaultGroupedCache.Get {T : Type} (c : DefaultGroupedCache T)
    (groupID id : Snowflake) : Option T :=
  match GoMap.mapGet c.cache groupID with
  | some groupEntities => GoMap.mapGet groupEntities id
  | none => none

/-- DefaultGroupedCache.Put from src/unnamed/part_002. -/
def DefaultGroupedCache.Put {T : Type} (c : DefaultGroupedCache T)
    (groupID id : Snowflake) (entity : T) : DefaultGroupedCache T :=
  if (c.neededFlags != CacheFlagsNone) && CacheFlags.Missing c.flags c.neededFlags then c
  else if (match c.policy with | some p => !(p entity) | none => false) then c
  else
    { c with cache :=
        match GoMap.mapGet c.cache groupID with
        | some groupEntities =>
            GoMap.mapPut c.cache groupID (GoMap.mapPut groupEntities id entity)
        | none => GoMap.mapPut c.cache groupID [(id, entity)] }

/-- DefaultGroupedCache.Remove from src/unnamed/part_002. -/
def DefaultGroupedCache.Remove {T : Type} (c : DefaultGroupedCache T)
    (groupID id : Snowflake) : Option T × DefaultGroupedCache T :=
  match GoMap.mapGet c.cache groupID with
  | some groupEntities =>
    match GoMap.mapGet groupEntities id with
    | some entity =>
        (some entity,
         { c with cache :=
             GoMap.mapPut c.cache groupID (GoMap.mapDel groupEntities id) })
    | none => (none, c)
  | none => (none, c)

/-- DefaultGroupedCache.RemoveAll from src/unnamed/part_002. -/
def DefaultGroupedCache.RemoveAll {T : Type} (c : DefaultGroupedCache T)
    (groupID : Snowflake) : DefaultGroupedCache T :=
  { c with cache := GoMap.mapDel c.cache groupID }

/-- DefaultGroupedCache.All from src/unnamed/part_002. -/
def DefaultGroupedCache.All {T : Type} (c : DefaultGroupedCache T) :
    List (Snowflake × List T) :=
  c.cache.map (fun g => (g.1, g.2.map Prod.snd))

/-- DefaultGroupedCache.GroupAll from src/unnamed/part_002: `none` models
the nil slice returned when the group is absent. -/
def DefaultGroupedCache.GroupAll {T : Type} (c : DefaultGroupedCache T)
    (groupID : Snowflake) : Option (List T) :=
  match GoMap.mapGet c.cache groupID with
  | some groupEntities => some (groupEntities.map Prod.snd)
  | none => none

/-- Helper for FindFirst in package core, mirroring the inner range loop. -/
def findFirstInGroup {T : Type} (groupID : Snowflake) (f : GroupedCacheFindFunc T) :
    List (Snowflake × T) → Option T
  | [] => none
  | q :: rest =>
    if f groupID q.2 then some q.2 else findFirstInGroup groupID f rest

/-- Helper for FindFirst in package core, mirroring the outer range loop. -/
def findFirstInGroups {T : Type} (f : GroupedCacheFindFunc T) :
    List (Snowflake × List (Snowflake × T)) → Option T
  | [] => none
  | g :: rest =>
    match findFirstInGroup g.1 f g.2 with
    | some e => some e
    | none => findFirstInGroups f rest

/-- DefaultGroupedCache.FindFirst from src/unnamed/part_002. -/
def DefaultGroupedCache.FindFirst {T : Type} (c : DefaultGroupedCache T)
    (cacheFindFunc : GroupedCacheFindFunc T) : Option T :=
  findFirstInGroups cacheFindFunc c.cache

/-- DefaultGroupedCache.GroupFindFirst from src/unnamed/part_002. -/
def DefaultGroupedCache.GroupFindFirst {T : Type} (c : DefaultGroupedCache T)
    (groupID : Snowflake) (cacheFindFunc : GroupedCacheFindFunc T) : Option T :=
  match GoMap.mapGet c.cache groupID with
  | some groupEntities => findFirstInGroup groupID cacheFindFunc groupEntities
  | none => none

/-- DefaultGroupedCache.FindAll from src/unnamed/part_002. -/
def DefaultGroupedCache.FindAll {T : Type} (c : DefaultGroupedCache T)
    (cacheFindFunc : GroupedCacheFindFunc T) : List T :=
  (c.cache.map
    (fun g => (g.2.filter (fun q => cacheFindFunc g.1 q.2)).map Prod.snd)).flatten

/-- DefaultGroupedCache.GroupFindAll from src/unnamed/part_002. -/
def DefaultGroupedCache.GroupFindAll {T : Type} (c : DefaultGroupedCache T)
    (groupID : Snowflake) (cacheFindFunc : GroupedCacheFindFunc T) : List T :=
  match GoMap.mapGet c.cache groupID with
  | some groupEntities =>
      (groupEntities.filter (fun q => cacheFindFunc groupID q.2)).map Prod.snd
  | none => []

end core

namespace equiv

/-- Operations shared by the two grouped-cache implementations, with the
key type of both snowflake libraries embedded as `Nat`. -/
inductive Op (T : Type) where
  | get (g i : Nat)
  | put (g i : Nat) (e : T)
  | remove (g i : Nat)
  | removeAll (g : Nat)
  | all
  | groupAll (g : Nat)
  | findFirst (f : Nat → T → Bool)
  | groupFindFirst (g : Nat) (f : Nat → T → Bool)
  | findAll (f : Nat → T → Bool)
  | groupFindAll (g : Nat) (f : Nat → T → Bool)

/-- Observable result of one operation. -/
inductive Output (T : Type) where
  | unit
  | entity (o : Option T)
  | entities (l : List T)
  | entitiesOpt (o : Option (List T))
  | groups (l : List (Nat × List T))

/-- One operation against cache.DefaultGroupedCache. -/
def stepCache {T : Type} (c : cache.DefaultGroupedCache T) :
    Op T → cache.DefaultGroupedCache T × Output T
  | .get g i => (c, .entity (c.Get g i))
  | .put g i e => (c.Put g i e, .unit)
  | .remove g i => ((c.Remove g i).2, .entity (c.Remove g i).1)
  | .removeAll g => (c.RemoveAll g, .unit)
  | .all => (c, .groups c.All)
  | .groupAll g => (c, .entitiesOpt (c.GroupAll g))
  | .findFirst f => (c, .entity (c.FindFirst f))
  | .groupFindFirst g f => (c, .entity (c.GroupFindFirst g f))
  | .findAll f => (c, .entities (c.FindAll f))
  | .groupFindAll g f => (c, .entities (c.GroupFindAll g f))

/-- One operation against core.DefaultGroupedCache. -/
def stepCore {T : Type} (c : core.DefaultGroupedCache T) :
    Op T → core.DefaultGroupedCache T × Output T
  | .get g i => (c, .entity (c.Get g i))
  | .put g i e => (c.Put g i e, .unit)
  | .remove g i => ((c.Remove g i).2, .entity (c.Remove g i).1)
  | .removeAll g => (c.RemoveAll g, .unit)
  | .all => (c, .groups c.All)
  | .groupAll g => (c, .entitiesOpt (c.GroupAll g))
  | .findFirst f => (c, .entity (c.FindFirst f))
  | .groupFindFirst g f => (c, .entity (c.GroupFindFirst g f))
  | .findAll f => (c, .entities (c.FindAll f))
  | .groupFindAll g f => (c, .entities (c.GroupFindAll g f))

/-- Run a sequence of operations against cache.DefaultGroupedCache. -/
def runCache {T : Type} (c : cache.DefaultGroupedCache T) :
    List (Op T) → cache.DefaultGroupedCache T × List (Output T)
  | [] => (c, [])
  | op :: ops =>
    let s := stepCache c op
    let r := runCache s.1 ops
    (r.1, s.2 :: r.2)

/-- Run a sequence of operations against core.DefaultGroupedCache. -/
def runCore {T : Type} (c : core.DefaultGroupedCache T) :
    List (Op T) → core.DefaultGroupedCache T × List (Output T)
  | [] => (c, [])
  | op :: ops =>
    let s := stepCore c op
    let r := runCore s.1 ops
    (r.1, s.2 :: r.2)

/-- Field-wise correspondence between states of the two implementations. -/
def toCore {T : Type} (c : cache.DefaultGroupedCache T) :
    core.DefaultGroupedCache T :=
  { flags := c.flags, neededFlags := c.neededFlags,
    policy := c.policy, cache := c.cache }

end equiv

namespace ptr

/-!
Pointer-level model of the grouped cache, used for the aliasing claim about
the enumeration accessors.  Go map values are references: the heap `Mem`
holds the inner maps (entity id → entity) and the outer maps (group id →
inner-map address), and a cache instance holds the address of its internal
outer map.  An accessor that executes `return c.cache` or
`return groupEntities` hands out an address into this heap, while the
copying accessors allocate fresh addresses; a caller mutation through a
returned address is a `writeInner`/`writeOuterKey` on that address.
-/

/-- Heap of Go map objects: outer maps addressed into `outers`, inner maps
addressed into `inners`. -/

structure Mem (T : Type) where
  outers : List (List (Nat × Nat))
  inners : List (List (Nat × T))

/-- Dereference an outer map address. -/
def Mem.readOuter {T : Type} (m : Mem T) (a : Nat) : List (Nat × Nat) :=
  m.outers.getD a []

/-- Dereference an inner map address. -/
def Mem.readInner {T : Type} (m : Mem T) (a : Nat) : List (Nat × T) :=
  m.inners.getD a []

/-- Allocate a fresh inner map object (a `make(map[snowflake.ID]T)` plus
the copied entries); its address is the previous heap size. -/
def Mem.allocInner {T : Type} (m : Mem T) (l : List (Nat × T)) : Nat × Mem T :=
  (m.inners.length, { m with inners := m.inners ++ [l] })

/-- Allocate a fresh outer map object. -/
def Mem.allocOuter {T : Type} (m : Mem T) (l : List (Nat × Nat)) : Nat × Mem T :=
  (m.outers.length, { m with outers := m.outers ++ [l] })

/-- Write `inner[k] = v` through an inner map address (a caller mutating a
returned map, or the cache writing through its own reference). -/
def Mem.writeInner {T : Type} (m : Mem T) (a k : Nat) (v : T) : Mem T :=
  { m with inners := m.inners.set a (GoMap.mapPut (m.readInner a) k v) }

/-- Write `outer[k] = ia` through an outer map address. -/
def Mem.writeOuterKey {T : Type} (m : Mem T) (a k ia : Nat) : Mem T :=
  { m with outers := m.outers.set a (GoMap.mapPut (m.readOuter a) k ia) }

/-- A grouped cache instance at the pointer level: the admission
configuration plus the address of the internal two-level map. -/
structure CacheObj (T : Type) where
  flags : Nat
  neededFlags : Nat
  policy : Option (T → Bool)
  mem : Mem T
  root : Nat

/-- DefaultGroupedCache.Get at the pointer level (src/cache/grouped_cache.go
and src/unnamed/part_002 are identical here): follow the internal outer map
to the group's inner map and look the id up there. -/
def CacheObj.Get {T : Type} (c : CacheObj T) (groupID id : Nat) : Option T :=
  match GoMap.mapGet (c.mem.readOuter c.root) groupID with
  | some ia => GoMap.mapGet (c.mem.readInner ia) id
  | none => none

/-- DefaultGroupedCache.Cache from src/unnamed/part_002: `return c.cache`
hands the caller the address of the internal outer map itself. -/
def CacheObj.Cache {T : Type} (c : CacheObj T) : Nat := c.root

/-- DefaultGroupedCache.GroupCache from src/unnamed/part_002:
`return groupEntities` hands the caller the address of the internal inner
map of the group, when present. -/
def CacheObj.GroupCache {T : Type} (c : CacheObj T) (groupID : Nat) : Option Nat :=
  GoMap.mapGet (c.mem.readOuter c.root) groupID

/-- Loop of DefaultGroupedCache.MapAll from src/cache/grouped_cache.go: for
each group allocate a fresh inner map holding a copy of the entries and
write it into the fresh outer map at address `oa`. -/
def mapAllLoop {T : Type} (m : Mem T) (oa : Nat) :
    List (Nat × Nat) → Mem T
  | [] => m
  | (g, ia) :: rest =>
    let copied := m.readInner ia
    let alloc := m.allocInner copied
    let m2 := alloc.2.writeOuterKey oa g alloc.1
    mapAllLoop m2 oa rest

/-- DefaultGroupedCache.MapAll from src/cache/grouped_cache.go: allocate a
fresh outer map, then fill it with freshly allocated copies of every inner
map; returns the fresh outer map's address and the new heap. -/
def CacheObj.MapAll {T : Type} (c : CacheObj T) : Nat × Mem T :=
  let alloc := c.mem.allocOuter []
  (alloc.1, mapAllLoop alloc.2 alloc.1 (c.mem.readOuter c.root))

/-- DefaultGroupedCache.MapGroupAll from src/cache/grouped_cache.go: when
the group exists, allocate a fresh inner map holding a copy of its entries
(`none` models the nil map returned otherwise). -/
def CacheObj.MapGroupAll {T : Type} (c : CacheObj T) (groupID : Nat) :
    Option Nat × Mem T :=
  match GoMap.mapGet (c.mem.readOuter c.root) groupID with
  | some ia =>
    let alloc := c.mem.allocInner (c.mem.readInner ia)
    (some alloc.1, alloc.2)
  | none => (none, c.mem)

/-- DefaultGroupedCache.All from src/cache/grouped_cache.go at the pointer
level: the outer result map and the per-group slices are freshly built from
copied entities, so the result is a pure value — the cache retains no
reference to any slice. -/
def CacheObj.All {T : Type} (c : CacheObj T) : List (Nat × List T) :=
  (c.mem.readOuter c.root).map (fun g => (g.1, (c.mem.readInner g.2).map Prod.snd))

/-- Concrete cache for the aliasing counterexample: one entity 42 stored
under group 5, id 7; the internal outer map lives at address 0 and the
group's inner map at address 0. -/
def exampleCache : CacheObj Nat :=
  { flags := 1, neededFlags := 0, policy := none,
    mem := { outers := [[(5, 0)]], inners := [[(7, 42)]] }, root := 0 }

end ptr

namespace discord

/-- Snowflake identifiers as used by src/discord/user.go: opaque ids,
embedded as natural numbers. -/
abbrev Snowflake := Nat

/-- UserFlags from src/discord/user.go: a plain integer bitset. -/
abbrev UserFlags := Int

/-- User from src/discord/user.go. -/
structure User where
  ID : Snowflake
  Username : String
  Discriminator : String
  Avatar : Option String
  Banner : Option String
  AccentColor : Option Int
  IsBot : Bool
  IsSystem : Bool
  PublicFlags : UserFlags

/-- GatewayEventType: the event-type tag of a raw gateway payload,
a string constant per event kind. -/
abbrev GatewayEventType := String

/-- Modelled from the spec: the tag served by the guild-ban-remove handler;
the constant's declaration is outside src/, only its use site
(src/core/handlers/gateway_handler_guild_ban_remove.go) is in src/. -/
def GatewayEventTypeGuildBanRemove : GatewayEventType := "GUILD_BAN_REMOVE"

/-- GatewaySequence: the sequence number attached to a dispatch payload. -/
abbrev GatewaySequence := Nat

/-- Modelled from the spec: the typed payload of a guild-ban-remove gateway
event, carrying the guild id and the unbanned user; the struct declaration
is outside src/, its field uses (payload.GuildID, payload.User,
payload.User.ID) are in src/core/handlers/gateway_handler_guild_ban_remove.go. -/
structure GuildBanRemoveGatewayEvent where
  GuildID : Snowflake
  User : User

/-- Abstract syntax of the regular expressions appearing in the mention
file of src/ (unnamed part_003): literal characters, the `\d` class, one
capturing group, concatenation, `?` and `+`. -/
inductive RE where
  | char (c : Char)
  | digit
  | group (r : RE)
  | seq (a b : RE)
  | opt (r : RE)
  | plus (r : RE)

/-- `MCap r s o` holds when the character list `s` (strings are embedded as
character lists) matches the regular expression `r` in full and `o` is the
text of the capturing group, when one was entered. -/
inductive MCap : RE → List Char → Option (List Char) → Prop where
  | char (c : Char) : MCap (.char c) [c] none
  | digit (c : Char) : c.isDigit = true → MCap .digit [c] none
  | seq {a b : RE} {s1 s2 : List Char} {o1 o2 : Option (List Char)} :
      MCap a s1 o1 → MCap b s2 o2 → MCap (.seq a b) (s1 ++ s2) (o1 <|> o2)
  | opt0 (r : RE) : MCap (.opt r) [] none
  | opt1 {r : RE} {s : List Char} {o : Option (List Char)} :
      MCap r s o → MCap (.opt r) s o
  | plus1 {r : RE} {s : List Char} {o : Option (List Char)} :
      MCap r s o → MCap (.plus r) s o
  | plusS {r : RE} {s1 s2 : List Char} {o1 o2 : Option (List Char)} :
      MCap r s1 o1 → MCap (.plus r) s2 o2 → MCap (.plus r) (s1 ++ s2) (o1 <|> o2)
  | grp {r : RE} {s : List Char} {o : Option (List Char)} :
      MCap r s o → MCap (.group r) s (some s)

/-- MentionTypeUser from src (unnamed part_003): the regular expression
literal over its wrapped regexp. -/
def MentionTypeUser : RE :=
  .seq (.char '<') (.seq (.char '@')
    (.seq (.opt (.char '!')) (.seq (.group (.plus .digit)) (.char '>'))))

/-- MentionTypeRole from src (unnamed part_003). -/
def MentionTypeRole : RE :=
  .seq (.char '<') (.seq (.char '@')
    (.seq (.char '&') (.seq (.group (.plus .digit)) (.char '>'))))

/-- MentionTypeChannel from src (unnamed part_003). -/
def MentionTypeChannel : RE :=
  .seq (.char '<') (.seq (.char '#')
    (.seq (.group (.plus .digit)) (.char '>')))

/-- Decimal digit character for a single digit value. -/
def decChar : Nat → Char
  | 0 => '0'
  | 1 => '1'
  | 2 => '2'
  | 3 => '3'
  | 4 => '4'
  | 5 => '5'
  | 6 => '6'
  | 7 => '7'
  | 8 => '8'
  | 9 => '9'
  | _ => '0'

/-- Decimal rendering of a snowflake id, most significant digit first, as
strconv.FormatUint(uint64(id), 10) — the snowflake String method — yields. -/
def decDigits (n : Nat) : List Char :=
  if _h : n < 10 then [decChar n]
  else decDigits (n / 10) ++ [decChar (n % 10)]
decreasing_by
  exact Nat.div_lt_self (by omega) (by omega)

/-- Numeric value of a most-significant-first decimal digit string. -/
def digitsVal (l : List Char) : Nat :=
  l.foldl (fun acc c => acc * 10 + (c.toNat - 48)) 0

/-- UserMention from src (unnamed part_003): fmt.Sprintf with the id's
decimal rendering. -/
def UserMention (id : Snowflake) : List Char :=
  '<' :: '@' :: (decDigits id ++ ['>'])

/-- ChannelMention from src (unnamed part_003). -/
def ChannelMention (id : Snowflake) : List Char :=
  '<' :: '#' :: (decDigits id ++ ['>'])

/-- RoleMention from src (unnamed part_003). -/
def RoleMention (id : Snowflake) : List Char :=
  '<' :: '@' :: '&' :: (decDigits id ++ ['>'])

end discord

namespace handlers

/-- Modelled from the spec: the flat-keyspace cache holding user-like
entities ("user-like entities are ungrouped"), with the same admission
control as the grouped cache — a needed-flag check and a nilable policy
predicate read on every Put. Declared outside src/. -/
structure SetCache (T : Type) where
  flags : Nat
  neededFlags : Nat
  policy : Option (T → Bool)
  cache : List (Nat × T)

/-- Modelled from the spec: Put of the flat users cache — rejected when the
needed flags are not all enabled or the policy rejects, otherwise an
insert-or-replace keyed by the entity id. -/
def SetCache.Put {T : Type} (c : SetCache T) (id : Nat) (entity : T) : SetCache T :=
  if (c.neededFlags != 0) && (c.flags &&& c.neededFlags != c.neededFlags) then c
  else if (match c.policy with | some p => !(p entity) | none => false) then c
  else { c with cache := GoMap.mapPut c.cache id entity }

/-- Modelled from the spec: Get of the flat users cache. -/
def SetCache.Get {T : Type} (c : SetCache T) (id : Nat) : Option T :=
  GoMap.mapGet c.cache id

/-- Modelled from the spec: the generic event-context carried by every
domain event — it holds a copy of the originating sequence number (the
back-reference to the client facade is not part of the sequential state). -/
structure GenericEvent where
  sequenceNumber : discord.GatewaySequence

/-- NewGenericEvent, modelled from the spec: constructs the generic
event-context for the given sequence number. -/
def NewGenericEvent (sequenceNumber : discord.GatewaySequence) : GenericEvent :=
  { sequenceNumber := sequenceNumber }

/-- GuildUnbanEvent, modelled from the spec: the domain event dispatched by
the guild-ban-remove handler, embedding the generic event-context and
carrying the guild id and the unbanned user. -/
structure GuildUnbanEvent where
  genericEvent : GenericEvent
  GuildID : discord.Snowflake
  User : discord.User

/-- Modelled from the spec: the slice of the client facade the handler
touches — the users cache (bot.Caches().Users()) and the event manager,
whose Dispatch appends the domain event to the ordered fan-out list. -/
structure Bot where
  usersCache : SetCache discord.User
  dispatched : List GuildUnbanEvent

/-- gatewayHandlerGuildBanRemove from
src/core/handlers/gateway_handler_guild_ban_remove.go: a stateless handler. -/
structure gatewayHandlerGuildBanRemove where

/-- EventType from src/core/handlers/gateway_handler_guild_ban_remove.go. -/
def gatewayHandlerGuildBanRemove.EventType (_ : gatewayHandlerGuildBanRemove) :
    discord.GatewayEventType :=
  discord.GatewayEventTypeGuildBanRemove

/-- HandleGatewayEvent from
src/core/handlers/gateway_handler_guild_ban_remove.go: put the payload's
user into the users cache keyed by its id, then dispatch one
GuildUnbanEvent carrying the sequence number, the guild id and the user. -/
def gatewayHandlerGuildBanRemove.HandleGatewayEvent
    (_ : gatewayHandlerGuildBanRemove) (bot : Bot)
    (sequenceNumber : discord.GatewaySequence)
    (payload : discord.GuildBanRemoveGatewayEvent) : Bot :=
  let bot1 := { bot with usersCache := bot.usersCache.Put payload.User.ID payload.User }
  { bot1 with
      dispatched := bot1.dispatched ++
        [{ genericEvent := NewGenericEvent sequenceNumber,
           GuildID := payload.GuildID,
           User := payload.User }] }

/-- Concrete bot state for the handler witness: users cached
unconditionally (no needed flags, no policy), nothing dispatched yet. -/
def exampleBot : Bot :=
  { usersCache := { flags := 1, neededFlags := 0, policy := none, cache := [] },
    dispatched := [] }

/-- Concrete guild-ban-remove payload for the handler witness. -/
def examplePayload : discord.GuildBanRemoveGatewayEvent :=
  { GuildID := 3,
    User := { ID := 9, Username := "u", Discriminator := "0001", Avatar := none,
              Banner := none, AccentColor := none, IsBot := false,
              IsSystem := false, PublicFlags := 0 } }

end handlers

namespace GoMap

variable {κ : Type} {β : Type} [DecidableEq κ]

theorem mapGet_mapPut (m : List (κ × β)) (k k' : κ) (v : β) :
    mapGet (mapPut m k v) k' = if k = k' then some v else mapGet m k' := by
  induction m with
  | nil => by_cases h : k = k' <;> simp [mapPut, mapGet, h]
  | cons p rest ih =>
    obtain ⟨k₀, v₀⟩ := p
    by_cases h0 : k₀ = k
    · subst h0
      by_cases h : k₀ = k' <;> simp [mapPut, mapGet, h]
    · by_cases h : k₀ = k'
      · subst h
        have hk : ¬ k = k₀ := fun hh => h0 hh.symm
        simp [mapPut, mapGet, h0, hk]
      · simp [mapPut, mapGet, h0, h, ih]

theorem mapGet_mapDel (m : List (κ × β)) (k : κ) :
    mapGet (mapDel m k) k = none := by
  induction m with
  | nil => rfl
  | cons p rest ih =>
    obtain ⟨k₀, v₀⟩ := p
    by_cases h : k₀ = k
    · simpa [mapDel, h] using ih
    · simpa [mapDel, mapGet, h] using ih

theorem mapGet_mapDel_ne (m : List (κ × β)) (k k' : κ) (h : k' ≠ k) :
    mapGet (mapDel m k) k' = mapGet m k' := by
  induction m with
  | nil => rfl
  | cons p rest ih =>
    obtain ⟨k₀, v₀⟩ := p
    by_cases h0 : k₀ = k
    · subst h0
      have hk : ¬ k₀ = k' := fun hh => h (hh.symm)
      simp [mapDel, mapGet, hk] at ih ⊢
      exact ih
    · by_cases h1 : k₀ = k' <;> simp_all [mapDel, mapGet, h0, h1]

theorem mapPut_mapPut (m : List (κ × β)) (k : κ) (v v' : β) :
    mapPut (mapPut m k v) k v' = mapPut m k v' := by
  induction m with
  | nil => simp [mapPut]
  | cons p rest ih =>
    obtain ⟨k₀, v₀⟩ := p
    by_cases h : k₀ = k
    · simp [mapPut, h]
    · simp [mapPut, h, ih]

theorem mapGet_mem_keys (m : List (κ × β)) (k : κ) (v : β)
    (h : mapGet m k = some v) : k ∈ m.map Prod.fst := by
  induction m with
  | nil => simp [mapGet] at h
  | cons p rest ih =>
    obtain ⟨k₀, v₀⟩ := p
    by_cases h0 : k₀ = k
    · simp [h0]
    · simp [mapGet, h0] at h
      simp [ih h]

theorem mapGet_eq_none_of_not_mem (m : List (κ × β)) (k : κ)
    (h : k ∉ m.map Prod.fst) : mapGet m k = none := by
  cases hm : mapGet m k with
  | none => rfl
  | some v => exact absurd (mapGet_mem_keys m k v hm) h

theorem mapGet_map_keyed {γ : Type} (m : List (κ × β)) (g : κ → β → γ) (k : κ) :
    mapGet (m.map (fun p => (p.1, g p.1 p.2))) k = (mapGet m k).map (g k) := by
  induction m with
  | nil => rfl
  | cons p rest ih =>
    obtain ⟨k₀, v₀⟩ := p
    by_cases h : k₀ = k
    · subst h
      simp [mapGet]
    · simp [mapGet, h, ih]

theorem mapGet_filter_nodup (m : List (κ × β)) (hm : (m.map Prod.fst).Nodup)
    (pred : κ × β → Bool) (k : κ) (e : β) :
    mapGet (m.filter pred) k = some e ↔
      mapGet m k = some e ∧ pred (k, e) = true := by
  induction m with
  | nil => simp [mapGet]
  | cons p rest ih =>
    obtain ⟨k₀, v₀⟩ := p
    simp only [List.map_cons, List.nodup_cons] at hm
    obtain ⟨hnotmem, hnd⟩ := hm
    by_cases h : k₀ = k
    · subst h
      cases hp : pred (k₀, v₀) with
      | true =>
        simp only [List.filter_cons, hp, mapGet, if_pos rfl]
        constructor
        · rintro ⟨rfl⟩
          exact ⟨rfl, hp⟩
        · rintro ⟨he, _⟩
          injection he with he
          simp [he]
      | false =>
        have hsub : k₀ ∉ (rest.filter pred).map Prod.fst := by
          intro hmem
          apply hnotmem
          obtain ⟨p, hpmem, hpk⟩ := List.mem_map.mp hmem
          exact hpk ▸ List.mem_map_of_mem Prod.fst (List.mem_filter.mp hpmem).1
        have hnone := mapGet_eq_none_of_not_mem (rest.filter pred) k₀ hsub
        simp only [List.filter_cons, hp, Bool.false_eq_true, if_false, hnone, mapGet,
          if_pos rfl, eq_self_iff_true, if_true]
        constructor
        · intro hc
          exact absurd hc (by simp)
        · rintro ⟨he, hpe⟩
          injection he with he
          subst he
          rw [hp] at hpe
          exact absurd hpe (by simp)
    · simp only [List.filter_cons, mapGet, h]
      cases hp : pred (k₀, v₀) with
      | true => simp [mapGet, h, ih hnd]
      | false => simp [ih hnd]

theorem mapGet_mem (m : List (κ × β)) (k : κ) (v : β)
    (h : mapGet m k = some v) : (k, v) ∈ m := by
  induction m with
  | nil => simp [mapGet] at h
  | cons p rest ih =>
    obtain ⟨k₀, v₀⟩ := p
    by_cases h0 : k₀ = k
    · subst h0
      simp [mapGet] at h
      simp [h]
    · simp [mapGet, h0] at h
      simp [ih h]

theorem mem_mapPut (m : List (κ × β)) (k : κ) (v : β) (p : κ × β)
    (h : p ∈ mapPut m k v) : p ∈ m ∨ p = (k, v) := by
  induction m with
  | nil =>
    simp [mapPut] at h
    exact Or.inr h
  | cons q rest ih =>
    by_cases h0 : q.1 = k
    · obtain ⟨k₀, v₀⟩ := q
      simp only at h0
      subst h0
      simp [mapPut] at h
      rcases h with h | h
      · exact Or.inr (by simp [h])
      · exact Or.inl (by simp [h])
    · obtain ⟨k₀, v₀⟩ := q
      simp only at h0
      simp [mapPut, h0] at h
      rcases h with h | h
      · exact Or.inl (by simp [h])
      · rcases ih h with h' | h'
        · exact Or.inl (by simp [h'])
        · exact Or.inr h'

theorem getD_set_ne {α : Type} (l : List α) (i j : Nat) (x d : α) (h : i ≠ j) :
    (l.set i x).getD j d = l.getD j d := by
  induction l generalizing i j with
  | nil => simp
  | cons a t ih =>
    cases i with
    | zero =>
      cases j with
      | zero => exact absurd rfl h
      | succ j => simp [List.set]
    | succ i =>
      cases j with
      | zero => simp [List.set]
      | succ j =>
        simp only [List.set, List.getD_cons_succ]
        exact ih i j (fun hh => h (by simp [hh]))

theorem getD_set_self {α : Type} (l : List α) (i : Nat) (x d : α)
    (h : i < l.length) : (l.set i x).getD i d = x := by
  induction l generalizing i with
  | nil => simp at h
  | cons a t ih =>
    cases i with
    | zero => simp [List.set]
    | succ i =>
      simp only [List.set, List.getD_cons_succ]
      exact ih i (by simpa using h)

end GoMap

namespace cache

theorem put_reduce_rejected {T : Type} (c : DefaultGroupedCache T)
    (groupID id : ID) (entity : T)
    (h : (c.neededFlags ≠ FlagsNone ∧ Flags.Missing c.flags c.neededFlags = true)
       ∨ ∃ p, c.policy = some p ∧ p entity = false) :
    c.Put groupID id entity = c := by
  unfold DefaultGroupedCache.Put
  rcases h with ⟨hne, hmiss⟩ | ⟨p, hp, hpe⟩
  · have hb : (c.neededFlags != FlagsNone) = true := by simpa using hne
    simp [hb, hmiss]
  · by_cases hflag : ((c.neededFlags != FlagsNone) && Flags.Missing c.flags c.neededFlags) = true
    · simp [hflag]
    · simp [hflag, hp, hpe]

theorem put_reduce_admitted {T : Type} (c : DefaultGroupedCache T)
    (groupID id : ID) (entity : T)
    (hflags : c.neededFlags = FlagsNone ∨ Flags.Missing c.flags c.neededFlags = false)
    (hpolicy : c.policy = none ∨ ∃ p, c.policy = some p ∧ p entity = true) :
    c.Put groupID id entity =
      { c with cache :=
          match GoMap.mapGet c.cache groupID with
          | some groupEntities =>
              GoMap.mapPut c.cache groupID (GoMap.mapPut groupEntities id entity)
          | none => GoMap.mapPut c.cache groupID [(id, entity)] } := by
  unfold DefaultGroupedCache.Put
  have hc1 : ((c.neededFlags != FlagsNone) && Flags.Missing c.flags c.neededFlags) = false := by
    rcases hflags with h | h <;> simp [h]
  have hc2 : (match c.policy with | some p => !(p entity) | none => false) = false := by
    rcases hpolicy with h | ⟨p, hp, hpe⟩
    · simp [h]
    · simp [hp, hpe]
  simp [hc1, hc2]

/-- C1: when the entity kind's needed flags are not all enabled, or the
admission policy rejects the entity, `Put(group, id, entity)` is a no-op:
the cache state is unchanged, and a subsequent `Get(group, id)` still
returns not-found when nothing was stored under `(group, id)` before. -/
theorem put_rejected_is_noop {T : Type} (c : DefaultGroupedCache T)
    (groupID id : ID) (entity : T)
    (h : (c.neededFlags ≠ FlagsNone ∧ Flags.Missing c.flags c.neededFlags = true)
       ∨ ∃ p, c.policy = some p ∧ p entity = false) :
    c.Put groupID id entity = c ∧
      (c.Get groupID id = none → (c.Put groupID id entity).Get groupID id = none) := by
  have hput := put_reduce_rejected c groupID id entity h
  exact ⟨hput, fun hg => by rwa [hput]⟩

theorem put_rejected_is_noop_witness :
    ((NewGroupedCache 0 1 (none : Policy Nat)).neededFlags ≠ FlagsNone ∧
        Flags.Missing (NewGroupedCache 0 1 (none : Policy Nat)).flags
          (NewGroupedCache 0 1 (none : Policy Nat)).neededFlags = true) ∧
      (NewGroupedCache 0 1 (none : Policy Nat)).Put 5 7 42 = NewGroupedCache 0 1 none := by
  refine ⟨⟨by decide, by decide⟩, ?_⟩
  exact (put_rejected_is_noop (NewGroupedCache 0 1 none) 5 7 42
    (Or.inl ⟨by decide, by decide⟩)).1

/-- C2: when the needed flags are enabled and the policy accepts the entity
(or is absent), `Put(group, id, entity)` stores the entity under
`(group, id)` — creating the group bucket if needed — and leaves every
other key unchanged, so `Get` afterwards returns exactly the new entity at
`(group, id)` and the old answer elsewhere. -/
theorem put_admitted_get {T : Type} (c : DefaultGroupedCache T)
    (groupID id : ID) (entity : T)
    (hflags : c.neededFlags = FlagsNone ∨ Flags.Missing c.flags c.neededFlags = false)
    (hpolicy : c.policy = none ∨ ∃ p, c.policy = some p ∧ p entity = true) :
    ∀ g' i', (c.Put groupID id entity).Get g' i' =
      if g' = groupID ∧ i' = id then some entity else c.Get g' i' := by
  intro g' i'
  rw [put_reduce_admitted c groupID id entity hflags hpolicy]
  unfold DefaultGroupedCache.Get
  cases hout : GoMap.mapGet c.cache groupID with
  | some ge =>
    simp only [hout, GoMap.mapGet_mapPut]
    by_cases hg : groupID = g'
    · subst hg
      simp only [if_pos rfl, GoMap.mapGet_mapPut, hout]
      by_cases hi : id = i'
      · subst hi
        simp [GoMap.mapGet_mapPut]
      · have hi' : ¬ (i' = id) := fun hh => hi hh.symm
        simp [hi, hi', GoMap.mapGet_mapPut]
    · have hg' : ¬ (g' = groupID) := fun hh => hg hh.symm
      simp [hg, hg']
  | none =>
    simp only [hout, GoMap.mapGet_mapPut]
    by_cases hg : groupID = g'
    · subst hg
      simp only [if_pos rfl, hout]
      by_cases hi : id = i'
      · subst hi
        simp [GoMap.mapGet]
      · have hi' : ¬ (i' = id) := fun hh => hi hh.symm
        simp [GoMap.mapGet, hi, hi']
    · have hg' : ¬ (g' = groupID) := fun hh => hg hh.symm
      simp [hg, hg']

theorem put_admitted_get_witness :
    ((NewGroupedCache 3 1 (none : Policy Nat)).neededFlags = FlagsNone ∨
        Flags.Missing (NewGroupedCache 3 1 (none : Policy Nat)).flags
          (NewGroupedCache 3 1 (none : Policy Nat)).neededFlags = false) ∧
      ((NewGroupedCache 3 1 (none : Policy Nat)).Put 5 7 42).Get 5 7 = some 42 := by
  refine ⟨Or.inr (by decide), ?_⟩
  have h := put_admitted_get (NewGroupedCache 3 1 (none : Policy Nat)) 5 7 42
    (Or.inr (by decide)) (Or.inl rfl) 5 7
  simpa using h

/-- C3: `Put` is idempotent — applying the same `Put(group, id, entity)`
twice in a row yields exactly the cache state of applying it once. -/
theorem put_idempotent {T : Type} (c : DefaultGroupedCache T)
    (groupID id : ID) (entity : T) :
    (c.Put groupID id entity).Put groupID id entity = c.Put groupID id entity := by
  by_cases hflag : (c.neededFlags ≠ FlagsNone ∧ Flags.Missing c.flags c.neededFlags = true)
  · rw [put_reduce_rejected c groupID id entity (Or.inl hflag),
      put_reduce_rejected c groupID id entity (Or.inl hflag)]
  · have hflags : c.neededFlags = FlagsNone ∨ Flags.Missing c.flags c.neededFlags = false := by
      by_cases h1 : c.neededFlags = FlagsNone
      · exact Or.inl h1
      · refine Or.inr ?_
        by_cases h2 : Flags.Missing c.flags c.neededFlags = true
        · exact absurd ⟨h1, h2⟩ hflag
        · simpa using h2
    cases hpol : c.policy with
    | some p =>
      cases hpe : p entity with
      | false =>
        rw [put_reduce_rejected c groupID id entity (Or.inr ⟨p, hpol, hpe⟩),
          put_reduce_rejected c groupID id entity (Or.inr ⟨p, hpol, hpe⟩)]
      | true =>
        have hpolicy : c.policy = none ∨ ∃ q, c.policy = some q ∧ q entity = true :=
          Or.inr ⟨p, hpol, hpe⟩
        rw [put_reduce_admitted c groupID id entity hflags hpolicy]
        rw [put_reduce_admitted _ groupID id entity (by simpa using hflags)
          (by simpa using hpolicy)]
        cases hout : GoMap.mapGet c.cache groupID with
        | some ge =>
          simp [hout, GoMap.mapGet_mapPut, GoMap.mapPut_mapPut]
        | none =>
          simp [hout, GoMap.mapGet_mapPut, GoMap.mapPut_mapPut, GoMap.mapPut]
    | none =>
      have hpolicy : c.policy = none ∨ ∃ q, c.policy = some q ∧ q entity = true :=
        Or.inl hpol
      rw [put_reduce_admitted c groupID id entity hflags hpolicy]
      rw [put_reduce_admitted _ groupID id entity (by simpa using hflags)
        (by simpa using hpolicy)]
      cases hout : GoMap.mapGet c.cache groupID with
      | some ge =>
        simp [hout, GoMap.mapGet_mapPut, GoMap.mapPut_mapPut]
      | none =>
        simp [hout, GoMap.mapGet_mapPut, GoMap.mapPut_mapPut, GoMap.mapPut]

/-- C4: `Remove(group, id)` returns the stored entity with found = true and
afterwards `Get(group, id)` misses, when an entity was present; when none
was present it returns not-found and leaves the cache state unchanged. -/
theorem remove_spec {T : Type} (c : DefaultGroupedCache T) (groupID id : ID) :
    (∀ e, c.Get groupID id = some e →
       (c.Remove groupID id).1 = some e ∧
         (c.Remove groupID id).2.Get groupID id = none) ∧
    (c.Get groupID id = none → c.Remove groupID id = (none, c)) := by
  constructor
  · intro e he
    unfold DefaultGroupedCache.Get at he
    unfold DefaultGroupedCache.Remove
    cases hout : GoMap.mapGet c.cache groupID with
    | none => simp [hout] at he
    | some ge =>
      simp only [hout] at he ⊢
      simp only [he]
      refine ⟨by simp, ?_⟩
      unfold DefaultGroupedCache.Get
      simp [GoMap.mapGet_mapPut, GoMap.mapGet_mapDel]
  · intro he
    unfold DefaultGroupedCache.Get at he
    unfold DefaultGroupedCache.Remove
    cases hout : GoMap.mapGet c.cache groupID with
    | none => simp [hout]
    | some ge =>
      simp only [hout] at he
      simp [hout, he]

theorem remove_spec_witness :
    ((NewGroupedCache 1 0 (none : Policy Nat)).Put 5 7 42).Get 5 7 = some 42 ∧
      (((NewGroupedCache 1 0 (none : Policy Nat)).Put 5 7 42).Remove 5 7).1 = some 42 ∧
      (((NewGroupedCache 1 0 (none : Policy Nat)).Put 5 7 42).Remove 5 7).2.Get 5 7 = none := by
  have h := (remove_spec ((NewGroupedCache 1 0 (none : Policy Nat)).Put 5 7 42) 5 7).1
    42 (by rfl)
  exact ⟨by rfl, h.1, h.2⟩

/-- C5: `RemoveAll(G)` empties group `G` — every `Get(G, id)` afterwards
misses — and leaves the entities of every other group unchanged. -/
theorem removeAll_spec {T : Type} (c : DefaultGroupedCache T) (G : ID) :
    (∀ id, (c.RemoveAll G).Get G id = none) ∧
    (∀ g' id, g' ≠ G → (c.RemoveAll G).Get g' id = c.Get g' id) := by
  constructor
  · intro id
    unfold DefaultGroupedCache.RemoveAll DefaultGroupedCache.Get
    simp [GoMap.mapGet_mapDel]
  · intro g' id hne
    unfold DefaultGroupedCache.RemoveAll DefaultGroupedCache.Get
    rw [GoMap.mapGet_mapDel_ne c.cache G g' hne]

theorem removeAll_spec_witness :
    ((((NewGroupedCache 1 0 (none : Policy Nat)).Put 5 7 42).Put 6 8 9).RemoveAll 5).Get 5 7
        = none ∧
      (6 : ID) ≠ 5 ∧
      ((((NewGroupedCache 1 0 (none : Policy Nat)).Put 5 7 42).Put 6 8 9).RemoveAll 5).Get 6 8
        = (((NewGroupedCache 1 0 (none : Policy Nat)).Put 5 7 42).Put 6 8 9).Get 6 8 := by
  refine ⟨(removeAll_spec (((NewGroupedCache 1 0 (none : Policy Nat)).Put 5 7 42).Put 6 8 9)
      5).1 7, by decide, ?_⟩
  exact (removeAll_spec (((NewGroupedCache 1 0 (none : Policy Nat)).Put 5 7 42).Put 6 8 9)
    5).2 6 8 (by decide)

/-- C6: after `RemoveIf(p)` an entity `e` is stored under `(gid, id)` if and
only if it was stored there before the call and `p gid e` is false; the
hypothesis states that every group bucket has duplicate-free keys, which
holds for every cache built by the operations since Go maps cannot contain
a key twice. -/
theorem removeIf_spec {T : Type} (c : DefaultGroupedCache T)
    (f : GroupedCacheFilterFunc T)
    (hwf : ∀ g ge, GoMap.mapGet c.cache g = some ge → (ge.map Prod.fst).Nodup)
    (gid id : ID) (e : T) :
    (c.RemoveIf f).Get gid id = some e ↔
      c.Get gid id = some e ∧ f gid e = false := by
  unfold DefaultGroupedCache.RemoveIf DefaultGroupedCache.Get
  have hmap := GoMap.mapGet_map_keyed c.cache
    (fun a ge => ge.filter (fun q => !(f a q.2))) gid
  simp only at hmap
  rw [hmap]
  cases hout : GoMap.mapGet c.cache gid with
  | none => simp
  | some ge =>
    simp only [Option.map_some']
    have hnd := hwf gid ge hout
    rw [GoMap.mapGet_filter_nodup ge hnd (fun q => !(f gid q.2)) id e]
    constructor
    · rintro ⟨hg, hp⟩
      exact ⟨hg, by simpa using hp⟩
    · rintro ⟨hg, hp⟩
      exact ⟨hg, by simp [hp]⟩

theorem removeIf_spec_witness :
    (∀ g ge, GoMap.mapGet ((NewGroupedCache 1 0 (none : Policy Nat)).Put 5 7 42).cache g
        = some ge → (ge.map Prod.fst).Nodup) ∧
      (((NewGroupedCache 1 0 (none : Policy Nat)).Put 5 7 42).RemoveIf
          (fun _ e => decide (e = 42))).Get 5 7 = none := by
  have hwf : ∀ g ge,
      GoMap.mapGet ((NewGroupedCache 1 0 (none : Policy Nat)).Put 5 7 42).cache g
        = some ge → (ge.map Prod.fst).Nodup := by
    intro g ge hge
    have : GoMap.mapGet [(5, [((7 : ID), (42 : Nat))])] g = some ge := hge
    by_cases h5 : (5 : ID) = g
    · subst h5
      simp [GoMap.mapGet] at this
      subst this
      simp
    · simp [GoMap.mapGet, h5] at this
  refine ⟨hwf, ?_⟩
  have h := removeIf_spec ((NewGroupedCache 1 0 (none : Policy Nat)).Put 5 7 42)
    (fun _ e => decide (e = 42)) hwf 5 7
  cases hres : (((NewGroupedCache 1 0 (none : Policy Nat)).Put 5 7 42).RemoveIf
      (fun _ e => decide (e = 42))).Get 5 7 with
  | none => rfl
  | some v =>
    have hv := (h v).mp hres
    have : v = 42 := by
      have hg : GoMap.mapGet [((7 : ID), (42 : Nat))] 7 = some v := by
        simpa [DefaultGroupedCache.Get, GoMap.mapGet] using hv.1
      have h42 : (42 : Nat) = v := by simpa [GoMap.mapGet] using hg
      exact h42.symm
    subst this
    simpa using hv.2

end cache

namespace equiv

theorem findFirstInGroup_eq {T : Type} (g : Nat) (f : Nat → T → Bool)
    (l : List (Nat × T)) :
    core.findFirstInGroup g f l = cache.findFirstInGroup g f l := by
  induction l with
  | nil => rfl
  | cons q rest ih =>
    by_cases h : f g q.2 = true
    · simp [core.findFirstInGroup, cache.findFirstInGroup, h]
    · simp [core.findFirstInGroup, cache.findFirstInGroup, h, ih]

theorem findFirstInGroups_eq {T : Type} (f : Nat → T → Bool)
    (l : List (Nat × List (Nat × T))) :
    core.findFirstInGroups f l = cache.findFirstInGroups f l := by
  induction l with
  | nil => rfl
  | cons g rest ih =>
    show (match core.findFirstInGroup g.1 f g.2 with
          | some e => some e
          | none => core.findFirstInGroups f rest) = _
    rw [findFirstInGroup_eq]
    cases h : cache.findFirstInGroup g.1 f g.2 with
    | some e => simp [cache.findFirstInGroups, h]
    | none => simp [cache.findFirstInGroups, h, ih]

theorem put_equiv {T : Type} (c : cache.DefaultGroupedCache T) (g i : Nat) (e : T) :
    core.DefaultGroupedCache.Put (toCore c) g i e
      = toCore (cache.DefaultGroupedCache.Put c g i e) := by
  unfold core.DefaultGroupedCache.Put cache.DefaultGroupedCache.Put
  have hflag : (((toCore c).neededFlags != core.CacheFlagsNone)
      && core.CacheFlags.Missing (toCore c).flags (toCore c).neededFlags)
      = ((c.neededFlags != cache.FlagsNone)
          && cache.Flags.Missing c.flags c.neededFlags) := rfl
  have hpol : (match (toCore c).policy with | some p => !(p e) | none => false)
      = (match c.policy with | some p => !(p e) | none => false) := rfl
  rw [hflag, hpol]
  by_cases h1 : ((c.neededFlags != cache.FlagsNone)
      && cache.Flags.Missing c.flags c.neededFlags) = true
  · rw [if_pos h1, if_pos h1]
  · rw [if_neg h1, if_neg h1]
    by_cases h2 : (match c.policy with | some p => !(p e) | none => false) = true
    · rw [if_pos h2, if_pos h2]
    · rw [if_neg h2, if_neg h2]
      rfl

theorem remove_equiv {T : Type} (c : cache.DefaultGroupedCache T) (g i : Nat) :
    core.DefaultGroupedCache.Remove (toCore c) g i
      = ((cache.DefaultGroupedCache.Remove c g i).1,
         toCore (cache.DefaultGroupedCache.Remove c g i).2) := by
  unfold core.DefaultGroupedCache.Remove cache.DefaultGroupedCache.Remove
  show (match GoMap.mapGet c.cache g with
        | some ge =>
          match GoMap.mapGet ge i with
          | some entity =>
              (some entity, { toCore c with cache := GoMap.mapPut c.cache g (GoMap.mapDel ge i) })
          | none => (none, toCore c)
        | none => (none, toCore c)) = _
  cases hout : GoMap.mapGet c.cache g with
  | some ge =>
    dsimp only
    cases hin : GoMap.mapGet ge i with
    | some entity => rfl
    | none => rfl
  | none => rfl

theorem step_equiv {T : Type} (c : cache.DefaultGroupedCache T) (op : Op T) :
    stepCore (toCore c) op = (toCore (stepCache c op).1, (stepCache c op).2) := by
  cases op with
  | get g i => rfl
  | put g i e =>
    simp only [stepCore, stepCache]
    rw [put_equiv]
  | remove g i =>
    simp only [stepCore, stepCache]
    rw [remove_equiv]
  | removeAll g => rfl
  | all => rfl
  | groupAll g => rfl
  | findFirst f =>
    simp only [stepCore, stepCache]
    show (toCore c, Output.entity (core.findFirstInGroups f c.cache)) = _
    rw [findFirstInGroups_eq]
    rfl
  | groupFindFirst g f =>
    simp only [stepCore, stepCache]
    show (toCore c, Output.entity
        (match GoMap.mapGet c.cache g with
         | some ge => core.findFirstInGroup g f ge
         | none => none)) = _
    cases hout : GoMap.mapGet c.cache g with
    | some ge =>
      dsimp only
      rw [findFirstInGroup_eq]
      show _ = (toCore c, Output.entity (cache.DefaultGroupedCache.GroupFindFirst c g f))
      unfold cache.DefaultGroupedCache.GroupFindFirst
      rw [hout]
    | none =>
      dsimp only
      show _ = (toCore c, Output.entity (cache.DefaultGroupedCache.GroupFindFirst c g f))
      unfold cache.DefaultGroupedCache.GroupFindFirst
      rw [hout]
  | findAll f => rfl
  | groupFindAll g f => rfl

theorem run_equiv {T : Type} (ops : List (Op T)) (c : cache.DefaultGroupedCache T) :
    runCore (toCore c) ops = (toCore (runCache c ops).1, (runCache c ops).2) := by
  induction ops generalizing c with
  | nil => rfl
  | cons op ops ih =>
    show (let s := stepCore (toCore c) op
          let r := runCore s.1 ops
          (r.1, s.2 :: r.2)) = _
    rw [step_equiv]
    simp only
    rw [ih (stepCache c op).1]
    rfl

/-- C9: the two grouped-cache implementations are extensionally equivalent:
for every sequence of the shared operations (Get, Put, Remove, RemoveAll,
All, GroupAll, FindFirst, GroupFindFirst, FindAll, GroupFindAll) started
from constructors given the same flags, needed flags and policy, the core
implementation produces exactly the outputs of the cache implementation
and a final state with the same flags, policy and cache contents
(`toCore` copies fields one-to-one). -/
theorem grouped_cache_equiv {T : Type} (flags neededFlags : Nat)
    (policy : Option (T → Bool)) (ops : List (Op T)) :
    runCore (core.NewGroupedCache flags neededFlags policy) ops
      = (toCore (runCache (cache.NewGroupedCache flags neededFlags policy) ops).1,
         (runCache (cache.NewGroupedCache flags neededFlags policy) ops).2) :=
  run_equiv ops (cache.NewGroupedCache flags neededFlags policy)

end equiv

namespace ptr

/-- C7 counterexample: GroupCache hands back the address of the internal
inner map, not a copy — writing key 9 ↦ 99 through the returned address
makes a subsequent `Get(5, 9)` observe the caller's mutation. -/
theorem groupCache_returns_live_reference :
    ptr.CacheObj.GroupCache ptr.exampleCache 5 = some 0 ∧
    ptr.CacheObj.Get ptr.exampleCache 5 9 = none ∧
    ptr.CacheObj.Get
        { ptr.exampleCache with mem := ptr.exampleCache.mem.writeInner 0 9 99 } 5 9
      = some 99 :=
  ⟨rfl, rfl, rfl⟩

theorem readOuter_writeInner {T : Type} (m : Mem T) (a k : Nat) (v : T) (b : Nat) :
    (m.writeInner a k v).readOuter b = m.readOuter b := rfl

theorem readInner_writeInner_ne {T : Type} (m : Mem T) (a k : Nat) (v : T) (b : Nat)
    (h : b ≠ a) : (m.writeInner a k v).readInner b = m.readInner b := by
  unfold Mem.writeInner Mem.readInner
  exact GoMap.getD_set_ne _ a b _ _ (fun hh => h hh.symm)

theorem readInner_allocInner {T : Type} (m : Mem T) (l : List (Nat × T)) (b : Nat)
    (h : b < m.inners.length) :
    (m.allocInner l).2.readInner b = m.readInner b := by
  unfold Mem.allocInner Mem.readInner
  exact List.getD_append _ _ _ _ h

theorem readOuter_allocInner {T : Type} (m : Mem T) (l : List (Nat × T)) (b : Nat) :
    (m.allocInner l).2.readOuter b = m.readOuter b := rfl

theorem readOuter_allocOuter {T : Type} (m : Mem T) (l : List (Nat × Nat)) (b : Nat)
    (h : b < m.outers.length) :
    (m.allocOuter l).2.readOuter b = m.readOuter b := by
  unfold Mem.allocOuter Mem.readOuter
  exact List.getD_append _ _ _ _ h

theorem readInner_allocOuter {T : Type} (m : Mem T) (l : List (Nat × Nat)) (b : Nat) :
    (m.allocOuter l).2.readInner b = m.readInner b := rfl

theorem readOuter_writeOuterKey_ne {T : Type} (m : Mem T) (a k ia : Nat) (b : Nat)
    (h : b ≠ a) : (m.writeOuterKey a k ia).readOuter b = m.readOuter b := by
  unfold Mem.writeOuterKey Mem.readOuter
  exact GoMap.getD_set_ne _ a b _ _ (fun hh => h hh.symm)

theorem readOuter_writeOuterKey_self {T : Type} (m : Mem T) (a k ia : Nat)
    (h : a < m.outers.length) :
    (m.writeOuterKey a k ia).readOuter a = GoMap.mapPut (m.readOuter a) k ia := by
  unfold Mem.writeOuterKey Mem.readOuter
  exact GoMap.getD_set_self _ a _ _ h

theorem readInner_writeOuterKey {T : Type} (m : Mem T) (a k ia : Nat) (b : Nat) :
    (m.writeOuterKey a k ia).readInner b = m.readInner b := rfl

theorem get_frame {T : Type} (c : CacheObj T) (m' : Mem T)
    (h1 : m'.readOuter c.root = c.mem.readOuter c.root)
    (h2 : ∀ p ∈ c.mem.readOuter c.root, m'.readInner p.2 = c.mem.readInner p.2)
    (gid id : Nat) :
    CacheObj.Get { c with mem := m' } gid id = c.Get gid id := by
  unfold CacheObj.Get
  simp only
  rw [h1]
  cases hout : GoMap.mapGet (c.mem.readOuter c.root) gid with
  | none => rfl
  | some ia =>
    have hmem : (gid, ia) ∈ c.mem.readOuter c.root := GoMap.mapGet_mem _ _ _ hout
    dsimp only
    rw [h2 (gid, ia) hmem]

theorem mapAllLoop_spec {T : Type} (entries : List (Nat × Nat)) (m : Mem T) (oa : Nat)
    (hoa : oa < m.outers.length) :
    (mapAllLoop m oa entries).outers.length = m.outers.length ∧
    m.inners.length ≤ (mapAllLoop m oa entries).inners.length ∧
    (∀ b, b ≠ oa → (mapAllLoop m oa entries).readOuter b = m.readOuter b) ∧
    (∀ b, b < m.inners.length → (mapAllLoop m oa entries).readInner b = m.readInner b) ∧
    (∀ p ∈ (mapAllLoop m oa entries).readOuter oa,
       m.inners.length ≤ p.2 ∨ p ∈ m.readOuter oa) := by
  induction entries generalizing m with
  | nil => exact ⟨rfl, Nat.le_refl _, fun b _ => rfl, fun b _ => rfl, fun p hp => Or.inr hp⟩
  | cons e rest ih =>
    obtain ⟨g, ia⟩ := e
    have hstep : mapAllLoop m oa ((g, ia) :: rest)
        = mapAllLoop (((m.allocInner (m.readInner ia)).2).writeOuterKey oa g
            m.inners.length) oa rest := rfl
    set m2 := ((m.allocInner (m.readInner ia)).2).writeOuterKey oa g m.inners.length
      with hm2
    have h2out : m2.outers.length = m.outers.length := by
      simp [hm2, Mem.writeOuterKey, Mem.allocInner]
    have h2in : m2.inners.length = m.inners.length + 1 := by
      simp [hm2, Mem.writeOuterKey, Mem.allocInner]
    have hoa2 : oa < m2.outers.length := by rw [h2out]; exact hoa
    obtain ⟨ih1, ih2, ih3, ih4, ih5⟩ := ih m2 hoa2
    rw [hstep]
    refine ⟨ih1.trans h2out, ?_, ?_, ?_, ?_⟩
    · calc m.inners.length ≤ m2.inners.length := by rw [h2in]; exact Nat.le_succ _
        _ ≤ _ := ih2
    · intro b hb
      rw [ih3 b hb, hm2, readOuter_writeOuterKey_ne _ _ _ _ _ hb,
        readOuter_allocInner]
    · intro b hb
      rw [ih4 b (by rw [h2in]; exact Nat.lt_succ_of_lt hb), hm2,
        readInner_writeOuterKey, readInner_allocInner _ _ _ hb]
    · intro p hp
      rcases ih5 p hp with h | h
      · exact Or.inl (by rw [h2in] at h; exact Nat.le_of_succ_le h)
      · rw [hm2, readOuter_writeOuterKey_self _ _ _ _ (by
            show oa < (m.allocInner (m.readInner ia)).2.outers.length
            simpa [Mem.allocInner] using hoa),
          readOuter_allocInner] at h
        rcases GoMap.mem_mapPut _ _ _ _ h with h' | h'
        · exact Or.inr h'
        · subst h'
          exact Or.inl (Nat.le_refl _)

theorem mapGroupAll_eq_some {T : Type} (c : CacheObj T) (g na : Nat) (m1 : Mem T)
    (h : c.MapGroupAll g = (some na, m1)) :
    ∃ ia, GoMap.mapGet (c.mem.readOuter c.root) g = some ia ∧
      na = c.mem.inners.length ∧
      m1 = (c.mem.allocInner (c.mem.readInner ia)).2 := by
  unfold CacheObj.MapGroupAll at h
  cases hga : GoMap.mapGet (c.mem.readOuter c.root) g with
  | none =>
    rw [hga] at h
    exact absurd (congrArg Prod.fst h) (by simp)
  | some ia =>
    rw [hga] at h
    refine ⟨ia, rfl, ?_, ?_⟩
    · have hfst := congrArg Prod.fst h
      simpa [Mem.allocInner] using hfst.symm
    · have hsnd := congrArg Prod.snd h
      simpa [Mem.allocInner] using hsnd.symm

theorem mapAll_eq {T : Type} (c : CacheObj T) (oa : Nat) (m1 : Mem T)
    (h : c.MapAll = (oa, m1)) :
    oa = c.mem.outers.length ∧
    m1 = mapAllLoop (c.mem.allocOuter []).2 (c.mem.allocOuter []).1
          (c.mem.readOuter c.root) := by
  unfold CacheObj.MapAll at h
  constructor
  · have hfst := congrArg Prod.fst h
    simpa [Mem.allocOuter] using hfst.symm
  · have hsnd := congrArg Prod.snd h
    simpa using hsnd.symm

theorem mapAll_spec {T : Type} (c : CacheObj T)
    (hroot : c.root < c.mem.outers.length) (oa : Nat) (m1 : Mem T)
    (h : c.MapAll = (oa, m1)) :
    oa = c.mem.outers.length ∧
    m1.readOuter c.root = c.mem.readOuter c.root ∧
    (∀ b, b < c.mem.inners.length → m1.readInner b = c.mem.readInner b) ∧
    (∀ p ∈ m1.readOuter oa, c.mem.inners.length ≤ p.2) := by
  obtain ⟨hoa, hm1⟩ := mapAll_eq c oa m1 h
  have halloc1 : (c.mem.allocOuter []).1 = c.mem.outers.length := rfl
  have hlen : (c.mem.allocOuter []).2.outers.length = c.mem.outers.length + 1 := by
    simp [Mem.allocOuter]
  have hoalt : (c.mem.allocOuter []).1 < (c.mem.allocOuter []).2.outers.length := by
    rw [halloc1, hlen]
    exact Nat.lt_succ_self _
  obtain ⟨_, _, hro, hri, hfresh⟩ :=
    mapAllLoop_spec (c.mem.readOuter c.root) (c.mem.allocOuter []).2
      (c.mem.allocOuter []).1 hoalt
  refine ⟨hoa, ?_, ?_, ?_⟩
  · rw [hm1, hro c.root (by rw [halloc1]; exact Nat.ne_of_lt hroot),
      readOuter_allocOuter _ _ _ hroot]
  · intro b hb
    have hbin : b < (c.mem.allocOuter []).2.inners.length := by
      simpa [Mem.allocOuter] using hb
    rw [hm1, hri b hbin, readInner_allocOuter]
  · intro p hp
    rw [hm1, hoa] at hp
    have hp' : p ∈ (mapAllLoop (c.mem.allocOuter []).2 (c.mem.allocOuter []).1
        (c.mem.readOuter c.root)).readOuter (c.mem.allocOuter []).1 := by
      simpa [halloc1] using hp
    rcases hfresh p hp' with h' | h'
    · simpa [Mem.allocOuter] using h'
    · have hempty : (c.mem.allocOuter []).2.readOuter (c.mem.allocOuter []).1 = [] := by
        unfold Mem.allocOuter Mem.readOuter
        simp
      rw [hempty] at h'
      exact absurd h' (List.not_mem_nil p)

/-- C7 (amended): the copying enumeration accessors hand back fresh
structures — for a well-formed cache (internal outer address in bounds and
every reachable inner address in bounds), the MapGroupAll and MapAll calls
leave every Get unchanged, and writing through any address they return
(the fresh outer map or any of the fresh inner maps) still leaves every
subsequent Get unchanged; by contrast Cache and GroupCache of the core
implementation return live internal references (see the counterexample). -/
theorem copy_accessors_do_not_alias {T : Type} (c : CacheObj T)
    (hroot : c.root < c.mem.outers.length)
    (hreach : ∀ p ∈ c.mem.readOuter c.root, p.2 < c.mem.inners.length) :
    (∀ g na m1, c.MapGroupAll g = (some na, m1) →
       ∀ gid id,
         CacheObj.Get { c with mem := m1 } gid id = c.Get gid id ∧
         ∀ k v, CacheObj.Get { c with mem := m1.writeInner na k v } gid id
             = c.Get gid id) ∧
    (∀ oa m1, c.MapAll = (oa, m1) →
       ∀ gid id,
         CacheObj.Get { c with mem := m1 } gid id = c.Get gid id ∧
         (∀ k ia, CacheObj.Get { c with mem := m1.writeOuterKey oa k ia } gid id
             = c.Get gid id) ∧
         (∀ na, na ∈ (m1.readOuter oa).map Prod.snd →
            ∀ k v, CacheObj.Get { c with mem := m1.writeInner na k v } gid id
                = c.Get gid id)) := by
  constructor
  · intro g na m1 hmg gid id
    obtain ⟨ia, hga, hna, hm1⟩ := mapGroupAll_eq_some c g na m1 hmg
    have hro : m1.readOuter c.root = c.mem.readOuter c.root := by
      rw [hm1]; exact readOuter_allocInner _ _ _
    have hri : ∀ p ∈ c.mem.readOuter c.root, m1.readInner p.2 = c.mem.readInner p.2 := by
      intro p hp
      rw [hm1]
      exact readInner_allocInner _ _ _ (hreach p hp)
    constructor
    · exact get_frame c m1 hro hri gid id
    · intro k v
      refine get_frame c _ ?_ ?_ gid id
      · rw [readOuter_writeInner, hro]
      · intro p hp
        rw [readInner_writeInner_ne _ _ _ _ _ (by rw [hna]; exact Nat.ne_of_lt (hreach p hp)),
          hri p hp]
  · intro oa m1 hma gid id
    obtain ⟨hoa, hro, hri, hfresh⟩ := mapAll_spec c hroot oa m1 hma
    have hri' : ∀ p ∈ c.mem.readOuter c.root, m1.readInner p.2 = c.mem.readInner p.2 :=
      fun p hp => hri p.2 (hreach p hp)
    refine ⟨get_frame c m1 hro hri' gid id, ?_, ?_⟩
    · intro k ia
      refine get_frame c _ ?_ ?_ gid id
      · rw [readOuter_writeOuterKey_ne _ _ _ _ _ (by rw [hoa]; exact Nat.ne_of_lt hroot), hro]
      · intro p hp
        rw [readInner_writeOuterKey, hri' p hp]
    · intro na hna k v
      obtain ⟨p', hp', hpna⟩ := List.mem_map.mp hna
      have hnage : c.mem.inners.length ≤ na := hpna ▸ hfresh p' hp'
      refine get_frame c _ ?_ ?_ gid id
      · rw [readOuter_writeInner, hro]
      · intro p hp
        rw [readInner_writeInner_ne _ _ _ _ _
            (Nat.ne_of_lt (Nat.lt_of_lt_of_le (hreach p hp) hnage)),
          hri' p hp]

/-- Witness for the amended C7 theorem at the concrete example cache:
MapGroupAll(5) returns a copy at the fresh address 1, and writing 9 ↦ 99
through the copy leaves Get(5, 9) a miss. -/
theorem copy_accessors_do_not_alias_witness :
    ptr.exampleCache.root < ptr.exampleCache.mem.outers.length ∧
    (∀ p ∈ ptr.exampleCache.mem.readOuter ptr.exampleCache.root,
       p.2 < ptr.exampleCache.mem.inners.length) ∧
    ptr.CacheObj.Get
        { ptr.exampleCache with
            mem := (ptr.exampleCache.mem.allocInner [(7, 42)]).2.writeInner 1 9 99 } 5 9
      = none := by
  have hroot : ptr.exampleCache.root < ptr.exampleCache.mem.outers.length := by decide
  have hreach : ∀ p ∈ ptr.exampleCache.mem.readOuter ptr.exampleCache.root,
      p.2 < ptr.exampleCache.mem.inners.length := by decide
  refine ⟨hroot, hreach, ?_⟩
  have hcall : ptr.CacheObj.MapGroupAll ptr.exampleCache 5
      = (some 1, (ptr.exampleCache.mem.allocInner [(7, 42)]).2) := rfl
  have h := ((copy_accessors_do_not_alias ptr.exampleCache hroot hreach).1
    5 1 (ptr.exampleCache.mem.allocInner [(7, 42)]).2 hcall 5 9).2 9 99
  rw [h]
  rfl

end ptr

namespace handlers

/-- C8: the guild-ban-remove handler serves exactly the GuildBanRemove tag;
HandleGatewayEvent puts the payload's user into the users cache keyed by
the user's id and appends exactly one GuildUnbanEvent — whose GuildID and
User equal the payload's and which carries the originating sequence
number — to the dispatch list; when the users cache admits the user, a
subsequent lookup returns it. -/
theorem guild_ban_remove_handler_spec (h : gatewayHandlerGuildBanRemove)
    (bot : Bot) (seq : discord.GatewaySequence)
    (payload : discord.GuildBanRemoveGatewayEvent) :
    h.EventType = discord.GatewayEventTypeGuildBanRemove ∧
    (h.HandleGatewayEvent bot seq payload).usersCache
      = bot.usersCache.Put payload.User.ID payload.User ∧
    (h.HandleGatewayEvent bot seq payload).dispatched
      = bot.dispatched ++
          [{ genericEvent := NewGenericEvent seq,
             GuildID := payload.GuildID, User := payload.User }] ∧
    ((bot.usersCache.neededFlags = 0 ∨
        bot.usersCache.flags &&& bot.usersCache.neededFlags
          = bot.usersCache.neededFlags) →
     (bot.usersCache.policy = none ∨
        ∃ p, bot.usersCache.policy = some p ∧ p payload.User = true) →
     (h.HandleGatewayEvent bot seq payload).usersCache.Get payload.User.ID
        = some payload.User) := by
  refine ⟨rfl, rfl, rfl, ?_⟩
  intro hflags hpolicy
  show (bot.usersCache.Put payload.User.ID payload.User).Get payload.User.ID
      = some payload.User
  have hput : bot.usersCache.Put payload.User.ID payload.User
      = { bot.usersCache with
          cache := GoMap.mapPut bot.usersCache.cache payload.User.ID payload.User } := by
    unfold SetCache.Put
    have hc1 : ((bot.usersCache.neededFlags != 0)
        && (bot.usersCache.flags &&& bot.usersCache.neededFlags
              != bot.usersCache.neededFlags)) = false := by
      rcases hflags with h | h <;> simp [h]
    simp only [hc1, Bool.false_eq_true, if_false]
    rcases hpolicy with hnone | ⟨p, hp, hpe⟩
    · rw [hnone]
      simp
    · rw [hp]
      dsimp only
      rw [hpe]
      simp
  rw [hput]
  show GoMap.mapGet
      (GoMap.mapPut bot.usersCache.cache payload.User.ID payload.User)
      payload.User.ID = some payload.User
  rw [GoMap.mapGet_mapPut]
  simp

theorem guild_ban_remove_handler_spec_witness :
    (exampleBot.usersCache.neededFlags = 0 ∨
       exampleBot.usersCache.flags &&& exampleBot.usersCache.neededFlags
         = exampleBot.usersCache.neededFlags) ∧
    (exampleBot.usersCache.policy = none ∨
       ∃ p, exampleBot.usersCache.policy = some p ∧ p examplePayload.User = true) ∧
    ((⟨⟩ : gatewayHandlerGuildBanRemove).HandleGatewayEvent
        exampleBot 77 examplePayload).usersCache.Get 9
      = some examplePayload.User := by
  refine ⟨Or.inl rfl, Or.inl rfl, ?_⟩
  exact (guild_ban_remove_handler_spec ⟨⟩ exampleBot 77 examplePayload).2.2.2
    (Or.inl rfl) (Or.inl rfl)

end handlers

namespace discord

theorem decChar_isDigit (d : Nat) : (decChar d).isDigit = true := by
  unfold decChar
  split <;> decide

theorem decChar_val (d : Nat) (h : d < 10) : (decChar d).toNat - 48 = d := by
  interval_cases d <;> rfl

theorem decDigits_ne_nil (n : Nat) : decDigits n ≠ [] := by
  unfold decDigits
  split
  · simp
  · simp

theorem decDigits_all_digit (n : Nat) : ∀ c ∈ decDigits n, c.isDigit = true := by
  induction n using Nat.strong_induction_on with
  | _ n ih =>
    unfold decDigits
    split
    · intro c hc
      simp at hc
      subst hc
      exact decChar_isDigit n
    · next h =>
      intro c hc
      rcases List.mem_append.mp hc with hmem | hmem
      · exact ih (n / 10) (Nat.div_lt_self (by omega) (by omega)) c hmem
      · simp at hmem
        subst hmem
        exact decChar_isDigit _

theorem digitsVal_decDigits (n : Nat) : digitsVal (decDigits n) = n := by
  induction n using Nat.strong_induction_on with
  | _ n ih =>
    unfold decDigits
    split
    · next h =>
      show digitsVal [decChar n] = n
      unfold digitsVal
      simp only [List.foldl_cons, List.foldl_nil, Nat.zero_mul, Nat.zero_add]
      exact decChar_val n h
    · next h =>
      have hdiv : n / 10 < n := Nat.div_lt_self (by omega) (by omega)
      have hih := ih (n / 10) hdiv
      unfold digitsVal at hih ⊢
      rw [List.foldl_append, hih]
      simp only [List.foldl_cons, List.foldl_nil]
      rw [decChar_val (n % 10) (Nat.mod_lt _ (by omega))]
      omega

theorem plus_digits (l : List Char) (hne : l ≠ [])
    (hd : ∀ c ∈ l, c.isDigit = true) : MCap (.plus .digit) l none := by
  induction l with
  | nil => exact absurd rfl hne
  | cons c rest ih =>
    cases rest with
    | nil => exact MCap.plus1 (MCap.digit c (hd c (by simp)))
    | cons d rest' =>
      exact MCap.plusS (MCap.digit c (hd c (by simp)))
        (ih (by simp) (fun x hx => hd x (by simp [hx])))

/-- C10: mention formatting round-trips with mention parsing — for every
snowflake id, the string UserMention(id) matches the MentionTypeUser
regular expression in full with the capturing group holding exactly the
id's decimal rendering, and likewise for ChannelMention/MentionTypeChannel
and RoleMention/MentionTypeRole; the decimal rendering evaluates back to
the id. -/
theorem mention_roundtrip (id : Snowflake) :
    MCap MentionTypeUser (UserMention id) (some (decDigits id)) ∧
    MCap MentionTypeChannel (ChannelMention id) (some (decDigits id)) ∧
    MCap MentionTypeRole (RoleMention id) (some (decDigits id)) ∧
    digitsVal (decDigits id) = id := by
  have hplus : MCap (.plus .digit) (decDigits id) none :=
    plus_digits (decDigits id) (decDigits_ne_nil id) (decDigits_all_digit id)
  refine ⟨?_, ?_, ?_, digitsVal_decDigits id⟩
  · exact MCap.seq (MCap.char '<') (MCap.seq (MCap.char '@')
      (MCap.seq (MCap.opt0 _) (MCap.seq (MCap.grp hplus) (MCap.char '>'))))
  · exact MCap.seq (MCap.char '<') (MCap.seq (MCap.char '#')
      (MCap.seq (MCap.grp hplus) (MCap.char '>')))
  · exact MCap.seq (MCap.char '<') (MCap.seq (MCap.char '@')
      (MCap.seq (MCap.char '&') (MCap.seq (MCap.grp hplus) (MCap.char '>'))))

end discord
